import Mathlib

/-!
Verification of the reader3 book server (`src/server.py`).

The embedding models filesystem paths as strings, the filesystem itself as a
structure of pure query functions, and the `functools.lru_cache(maxsize=10)`
decorator on `load_book_cached` as a recency-ordered association list.
-/

set_option autoImplicit false

/-! ## String and path helpers (models of `os.path` operations) -/

/-- Model of POSIX `os.path.join a b`: an absolute second component discards
the first; otherwise the parts are glued with a single `/` separator. -/
def pyJoin (a b : String) : String :=
  if b.data.head? = some '/' then b
  else if a = "" then b
  else if a.data.getLast? = some '/' then a ++ b
  else a ++ "/" ++ b

/-- Model of POSIX `os.path.basename`: the suffix after the last `/`. -/
def pyBasename (s : String) : String :=
  String.mk ((s.data.reverse.takeWhile (fun c => c != '/')).reverse)

/-- Split a string at its first colon: Python `s.split(":", 1)`
(meaningful when the string contains a colon). -/
def splitFirstColon (s : String) : String × String :=
  (String.mk (s.data.takeWhile (fun c => c != ':')),
   String.mk ((s.data.dropWhile (fun c => c != ':')).drop 1))

/-- The ASCII whitespace characters `int()` strips (CPython `Py_ISSPACE`):
space, tab, newline, carriage return, vertical tab, form feed. -/
def pyWhitespace (c : Char) : Bool :=
  c == ' ' || c == '\t' || c == '\n' || c == '\r' || c == '\x0b' || c == '\x0c'

/-- Strip leading and trailing whitespace from a character list. -/
def pyStrip (l : List Char) : List Char :=
  ((l.dropWhile pyWhitespace).reverse.dropWhile pyWhitespace).reverse

/-- Continue parsing a decimal numeral after its first digit: further digits,
with a single underscore allowed only between two digits (Python's digit
grouping). -/
def digitsGroupedVal : List Char → Nat → Option Nat
  | [], acc => some acc
  | c :: rest, acc =>
    if c.isDigit then digitsGroupedVal rest (10 * acc + (c.toNat - 48))
    else if c = '_' then
      match rest with
      | [] => none
      | c2 :: rest2 =>
        if c2.isDigit then digitsGroupedVal rest2 (10 * acc + (c2.toNat - 48))
        else none
    else none

/-- A nonempty underscore-grouped decimal numeral (must start with a digit). -/
def pyIntCore (cs : List Char) : Option Nat :=
  match cs with
  | [] => none
  | c :: rest => if c.isDigit then digitsGroupedVal rest (c.toNat - 48) else none

/-- Model of Python `int(s)` on ASCII strings: surrounding ASCII whitespace
is stripped, then an optional single sign and decimal digits with single
underscores allowed between digits; anything else raises `ValueError`
(here: `none`).  CPython additionally maps Unicode decimal digits and
Unicode spaces to ASCII before this parse; strings beyond ASCII are outside
the model, and the theorem about the parse-failure boundary assumes an
ASCII prefix. -/
def pyInt (s : String) : Option Int :=
  match pyStrip s.data with
  | '-' :: rest => (pyIntCore rest).map (fun n => -(n : Int))
  | '+' :: rest => (pyIntCore rest).map (fun n => (n : Int))
  | cs => (pyIntCore cs).map (fun n => (n : Int))

/-! ## Data model (`reader3` classes, mirrored in `reproduce_issue.py`) -/

structure ChapterContent where
  id : String
  href : String
  title : String
  content : String
  text : String
  order : Int
deriving DecidableEq, Repr

inductive TOCEntry where
  | mk (title : String) (href : String) (file_href : String) (anchor : String)
       (children : List TOCEntry)
deriving Repr

structure BookMetadata where
  title : String
  language : String
  authors : List String
  description : Option String
  publisher : Option String
  date : Option String
  identifiers : List String
  subjects : List String
deriving DecidableEq, Repr

structure Book where
  metadata : BookMetadata
  spine : List ChapterContent
  toc : List TOCEntry
  images : List (String × String)
  source_file : String
  processed_at : String
  version : String
deriving Repr

/-- The filesystem and deserializer environment seen by the server:
`os.path.exists`, `os.listdir`, `os.path.isdir`, `os.path.abspath`, and the
outcome of `pickle.load` on the file at a given path. -/
structure FS where
  exists_ : String → Bool
  listdir : String → List String
  isdir : String → Bool
  abspath : String → String
  pickle : String → Except String Book

/-! ## Path resolver (`resolve_book_path`, server.py lines 21-44) -/

/-- The fallback scan of `resolve_book_path` (lines 38-44): walk the
configured roots in order and return the first `<root>/<book_id>/book.pkl`
that exists, together with its folder. -/
def unscopedResolve (fs : FS) : List String → String → Option (String × String)
  | [], _ => none
  | d :: rest, book_id =>
    if fs.exists_ (pyJoin (pyJoin d book_id) "book.pkl") then
      some (pyJoin (pyJoin d book_id) "book.pkl", pyJoin d book_id)
    else unscopedResolve fs rest book_id

/-- `resolve_book_path` (lines 21-44): try the explicit `index:folder` form
first, constructing the path without an existence check; on a parse failure
or out-of-range index fall through to the unscoped scan over the full
original identifier. -/
def resolve_book_path (fs : FS) (roots : List String) (book_id : String) :
    Option (String × String) :=
  let scopedTry : Option (String × String) :=
    if ':' ∈ book_id.data then
      match pyInt (splitFirstColon book_id).1 with
      | some idx =>
        if 0 ≤ idx ∧ idx < (roots.length : Int) then
          let base := roots.getD idx.toNat ""
          let folder := (splitFirstColon book_id).2
          some (pyJoin (pyJoin base folder) "book.pkl", pyJoin base folder)
        else none
      | none => none
    else none
  match scopedTry with
  | some r => some r
  | none => unscopedResolve fs roots book_id

/-! ## Book loading (`load_book_cached` body, server.py lines 46-62) -/

/-- The uncached body of `load_book_cached`: resolve the identifier, check
the path exists, deserialize; any deserialization error is swallowed and
becomes `none`. -/
def load_book (fs : FS) (roots : List String) (book_id : String) : Option Book :=
  match resolve_book_path fs roots book_id with
  | none => none
  | some (file_path, _) =>
    if fs.exists_ file_path then
      match fs.pickle file_path with
      | .ok book => some book
      | .error _ => none
    else none

/-! ## The LRU cache (`@lru_cache(maxsize=10)`, server.py line 46)

The cache state is an association list ordered by recency of use, most
recently used first.  A hit moves the entry to the front; a miss computes
the value, inserts it at the front, and truncates to 10 entries, dropping
the least recently used one.  The third component of a lookup's result
counts the disk reads (resolver + deserialization runs) it performed. -/

abbrev CacheState (α : Type) := List (String × α)

/-- Association-list lookup (the cache's key → value map). -/
def cacheLookup {α : Type} : CacheState α → String → Option α
  | [], _ => none
  | p :: rest, k => if p.1 = k then some p.2 else cacheLookup rest k

/-- One memoized call of an `lru_cache(maxsize=10)`-decorated function `f`. -/
def lruGet {α : Type} (f : String → α) (st : CacheState α) (k : String) :
    α × CacheState α × Nat :=
  match cacheLookup st k with
  | some v => (v, (k, v) :: st.filter (fun q => decide (q.1 ≠ k)), 0)
  | none => (f k, ((k, f k) :: st).take 10, 1)

/-- The cache state after a sequence of memoized calls, starting empty. -/
def runLru {α : Type} (f : String → α) (ks : List String) : CacheState α :=
  ks.foldl (fun st k => (lruGet f st k).2.1) []

/-- `load_book_cached`: the `lru_cache`-decorated book loader.  Returns the
loaded value, the new cache state, and the number of disk loads performed. -/
def load_book_cached (fs : FS) (roots : List String) (st : CacheState (Option Book))
    (book_id : String) : Option Book × CacheState (Option Book) × Nat :=
  lruGet (load_book fs roots) st book_id

/-- The cache state of `load_book_cached` after a sequence of lookups. -/
def runBookCache (fs : FS) (roots : List String) (ks : List String) :
    CacheState (Option Book) :=
  runLru (load_book fs roots) ks

/-- Position of the first occurrence of `k` (list length when absent). -/
def firstIdx : List String → String → Nat
  | [], _ => 0
  | a :: rest, k => if a = k then 0 else firstIdx rest k + 1

/-- `a` was used more recently than `b` in the lookup history `ks`
(later occurrences in `ks` are more recent; both a hit and an insertion are
occurrences). -/
def moreRecent (ks : List String) (a b : String) : Prop :=
  firstIdx ks.reverse a < firstIdx ks.reverse b

instance (ks : List String) (a b : String) : Decidable (moreRecent ks a b) :=
  Nat.decLt _ _

/-! ## HTTP layer data -/

abbrev HTTPError := Nat × String

/-- The template context assembled by `read_chapter` (server.py lines 133-141),
minus the request object. -/
structure ReaderResponse where
  book : Book
  current_chapter : ChapterContent
  chapter_index : Int
  book_id : String
  prev_idx : Option Int
  next_idx : Option Int
deriving Repr

def defaultChapter : ChapterContent :=
  { id := "", href := "", title := "", content := "", text := "", order := 0 }

/-- A row of the library listing (server.py lines 103-108). -/
structure BookSummary where
  id : String
  title : String
  author : String
  chapters : Nat
deriving DecidableEq, Repr

/-- What `library_view` renders: either the directory chooser (name,
absolute path, index per root) or the book list. -/
inductive LibraryResponse where
  | dirs (entries : List (String × String × Nat))
  | books (entries : List BookSummary)
deriving Repr

/-! ## Endpoints (server.py lines 64-158) -/

/-- `read_chapter` (lines 117-141): 404 when the book is absent or the index
is out of `[0, len(spine))`; otherwise render the chapter with prev/next
links clamped to `none` at the boundaries. -/
def read_chapter (fs : FS) (roots : List String) (book_id : String)
    (chapter_index : Int) : Except HTTPError ReaderResponse :=
  match load_book fs roots book_id with
  | none => .error (404, "Book not found")
  | some book =>
    if chapter_index < 0 ∨ (book.spine.length : Int) ≤ chapter_index then
      .error (404, "Chapter not found")
    else
      .ok { book := book
            current_chapter := book.spine.getD chapter_index.toNat defaultChapter
            chapter_index := chapter_index
            book_id := book_id
            prev_idx := if 0 < chapter_index then some (chapter_index - 1) else none
            next_idx :=
              if chapter_index < (book.spine.length : Int) - 1 then
                some (chapter_index + 1)
              else none }

/-- A live HTTP request object, opaque to this model.  `read_chapter`
declares one as its first parameter, `request: Request`, with no default
(server.py line 118); on the routed path the framework injects it, and
`read_chapter` above models that already-bound path. -/
inductive Request where
  | mk : Request

/-- The result of directly calling the Python function `read_chapter`.
Python binds arguments before running the body; a missing required
parameter raises `TypeError` at the call site, which no handler catches, so
it surfaces as an HTTP 500 rather than any rendered or 404 response. -/
inductive PyCallResult (α : Type) where
  | ok (value : α)
  | typeError (message : String)
deriving Repr

/-- A direct call of `read_chapter` with an optional `request` argument:
binding fails with `TypeError` when the required `request` is absent,
otherwise the body runs. -/
def callReadChapter (fs : FS) (roots : List String) (request : Option Request)
    (book_id : String) (chapter_index : Int) :
    PyCallResult (Except HTTPError ReaderResponse) :=
  match request with
  | none => .typeError "read_chapter() missing 1 required positional argument: request"
  | some _ => .ok (read_chapter fs roots book_id chapter_index)

/-- `redirect_to_first_chapter` (lines 112-115): the body is
`return await read_chapter(book_id=book_id, chapter_index=0)` — a call that
omits `read_chapter`'s required `request` parameter. -/
def redirect_to_first_chapter (fs : FS) (roots : List String) (book_id : String) :
    PyCallResult (Except HTTPError ReaderResponse) :=
  callReadChapter fs roots none book_id 0

/-- `serve_image` (lines 143-158): resolve the book folder, strip the image
name to its basename, and serve `<folder>/images/<basename>` if it exists. -/
def serve_image (fs : FS) (roots : List String) (book_id image_name : String) :
    Except HTTPError String :=
  match resolve_book_path fs roots book_id with
  | none => .error (404, "Book path not found")
  | some (_, book_folder) =>
    let safe_image_name := pyBasename image_name
    let img_path := pyJoin (pyJoin book_folder "images") safe_image_name
    if fs.exists_ img_path then .ok img_path
    else .error (404, "Image not found")

/-- The book rows produced for one target directory (lines 89-108). -/
def libraryBooks (fs : FS) (roots : List String) (target_idx : Int)
    (target_dir : String) : List BookSummary :=
  if fs.exists_ target_dir then
    (fs.listdir target_dir).filterMap (fun item =>
      if "_data".data.isSuffixOf item.data then
        if fs.isdir (pyJoin target_dir item) then
          let scoped_id := toString target_idx ++ ":" ++ item
          match load_book fs roots scoped_id with
          | some book =>
            some { id := scoped_id
                   title := book.metadata.title
                   author := String.intercalate ", " book.metadata.authors
                   chapters := book.spine.length }
          | none => none
        else none
      else none)
  else []

/-- `library_view` (lines 64-110): show the directory chooser when several
roots are configured and none is selected; otherwise list the books of the
selected root, silently clamping an out-of-range selection to 0. -/
def library_view (fs : FS) (roots : List String) (dir_index : Option Int) :
    LibraryResponse :=
  if roots.length > 1 ∧ dir_index = none then
    .dirs (roots.enum.map (fun p =>
      (if pyBasename (fs.abspath p.2) = "" then p.2 else pyBasename (fs.abspath p.2),
       fs.abspath p.2, p.1)))
  else
    let t0 : Int := dir_index.getD 0
    let target_idx : Int := if t0 < 0 ∨ (roots.length : Int) ≤ t0 then 0 else t0
    .books (libraryBooks fs roots target_idx (roots.getD target_idx.toNat ""))

/-! ## Resolver lemmas -/

theorem takeWhile_middle {p : Char → Bool} (l2 : List Char) (x : Char) (hx : p x = false) :
    ∀ l1 : List Char, (∀ c ∈ l1, p c = true) → (l1 ++ x :: l2).takeWhile p = l1
  | [], _ => by simp [List.takeWhile_cons, hx]
  | c :: l1, h => by
    have hc : p c = true := h c (by simp)
    simp only [List.cons_append, List.takeWhile_cons, hc, if_true]
    rw [takeWhile_middle l2 x hx l1 (fun d hd => h d (by simp [hd]))]

theorem dropWhile_middle {p : Char → Bool} (l2 : List Char) (x : Char) (hx : p x = false) :
    ∀ l1 : List Char, (∀ c ∈ l1, p c = true) → (l1 ++ x :: l2).dropWhile p = x :: l2
  | [], _ => by simp [List.dropWhile_cons, hx]
  | c :: l1, h => by
    have hc : p c = true := h c (by simp)
    simp only [List.cons_append, List.dropWhile_cons, hc, if_true]
    exact dropWhile_middle l2 x hx l1 (fun d hd => h d (by simp [hd]))

theorem pyStrip_mem {l : List Char} {c : Char} (hc : c ∈ l) :
    pyWhitespace c = true ∨ c ∈ pyStrip l := by
  by_cases hw : pyWhitespace c = true
  · exact Or.inl hw
  · right
    unfold pyStrip
    have h1 : c ∈ l.dropWhile pyWhitespace := by
      rw [← List.takeWhile_append_dropWhile (p := pyWhitespace) (l := l)] at hc
      rcases List.mem_append.mp hc with h | h
      · exact absurd (List.mem_takeWhile_imp h) hw
      · exact h
    have h2 : c ∈ (l.dropWhile pyWhitespace).reverse := List.mem_reverse.mpr h1
    have h3 : c ∈ (l.dropWhile pyWhitespace).reverse.dropWhile pyWhitespace := by
      rw [← List.takeWhile_append_dropWhile (p := pyWhitespace)
        (l := (l.dropWhile pyWhitespace).reverse)] at h2
      rcases List.mem_append.mp h2 with h | h
      · exact absurd (List.mem_takeWhile_imp h) hw
      · exact h
    exact List.mem_reverse.mpr h3

theorem digitsGroupedVal_chars : ∀ (cs : List Char) (acc n : Nat),
    digitsGroupedVal cs acc = some n → ∀ c ∈ cs, c.isDigit = true ∨ c = '_'
  | [], _, _, _, c, hc => absurd hc (List.not_mem_nil c)
  | c0 :: rest, acc, n, h, c, hc => by
    unfold digitsGroupedVal at h
    split at h
    · rename_i hd
      rcases List.mem_cons.mp hc with rfl | hmem
      · exact Or.inl hd
      · exact digitsGroupedVal_chars rest _ n h c hmem
    · split at h
      · rename_i hu
        split at h
        · exact absurd h (by simp)
        · rename_i c2 rest2
          split at h
          · rename_i hd2
            rcases List.mem_cons.mp hc with rfl | hmem
            · exact Or.inr hu
            · rcases List.mem_cons.mp hmem with rfl | hmem2
              · exact Or.inl hd2
              · exact digitsGroupedVal_chars rest2 _ n h c hmem2
          · exact absurd h (by simp)
      · exact absurd h (by simp)

theorem pyIntCore_chars {cs : List Char} {n : Nat} (h : pyIntCore cs = some n) :
    ∀ c ∈ cs, c.isDigit = true ∨ c = '_' := by
  cases cs with
  | nil => intro c hc; cases hc
  | cons c0 rest =>
    rw [show pyIntCore (c0 :: rest) =
      if c0.isDigit then digitsGroupedVal rest (c0.toNat - 48) else none from rfl] at h
    by_cases hd : c0.isDigit
    · rw [if_pos hd] at h
      intro c hc
      rcases List.mem_cons.mp hc with rfl | hmem
      · exact Or.inl hd
      · exact digitsGroupedVal_chars rest _ n h c hmem
    · rw [if_neg hd] at h
      exact absurd h (by simp)

theorem pyInt_not_colon {s : String} {i : Int} (h : pyInt s = some i) : ':' ∉ s.data := by
  intro hmem
  rcases pyStrip_mem hmem with hw | hmem'
  · exact absurd hw (by decide)
  · unfold pyInt at h
    split at h
    · rename_i rest heq
      rw [heq] at hmem'
      rcases List.mem_cons.mp hmem' with h1 | h1
      · exact absurd h1 (by decide)
      · cases hd : pyIntCore rest with
        | none => rw [hd] at h; exact absurd h (by simp)
        | some n => exact absurd (pyIntCore_chars hd ':' h1) (by decide)
    · rename_i rest heq
      rw [heq] at hmem'
      rcases List.mem_cons.mp hmem' with h1 | h1
      · exact absurd h1 (by decide)
      · cases hd : pyIntCore rest with
        | none => rw [hd] at h; exact absurd h (by simp)
        | some n => exact absurd (pyIntCore_chars hd ':' h1) (by decide)
    · cases hd : pyIntCore (pyStrip s.data) with
      | none => rw [hd] at h; exact absurd h (by simp)
      | some n => exact absurd (pyIntCore_chars hd ':' hmem') (by decide)

theorem data_append_colon (a b : String) :
    (a ++ ":" ++ b).data = a.data ++ ':' :: b.data := by
  rw [String.data_append, String.data_append]
  rw [show (":" : String).data = [':'] from rfl, List.append_assoc]
  rfl

theorem splitFirstColon_append {a : String} (b : String) (h : ':' ∉ a.data) :
    splitFirstColon (a ++ ":" ++ b) = (a, b) := by
  have hall : ∀ c ∈ a.data, (c != ':') = true := by
    intro c hc
    have : c ≠ ':' := fun he => h (he ▸ hc)
    simp [this]
  have hx : (fun c => c != ':') ':' = false := by decide
  unfold splitFirstColon
  rw [data_append_colon,
    takeWhile_middle (p := fun c => c != ':') b.data ':' hx a.data hall,
    dropWhile_middle (p := fun c => c != ':') b.data ':' hx a.data hall]
  rfl

/-- `<roots[i]>/<book_id>/book.pkl`, the candidate snapshot path the fallback
scan probes at root index `i`. -/
def candidatePkl (roots : List String) (book_id : String) (i : Nat) : String :=
  pyJoin (pyJoin (roots.getD i "") book_id) "book.pkl"

/-- `<roots[i]>/<book_id>`, the candidate book folder at root index `i`. -/
def candidateFolder (roots : List String) (book_id : String) (i : Nat) : String :=
  pyJoin (roots.getD i "") book_id

theorem unscopedResolve_eq_none_iff (fs : FS) (book_id : String) :
    ∀ roots : List String, (unscopedResolve fs roots book_id = none ↔
      ∀ i, i < roots.length → fs.exists_ (candidatePkl roots book_id i) = false)
  | [] => by simp [unscopedResolve]
  | d :: rest => by
    unfold unscopedResolve
    by_cases hx : fs.exists_ (pyJoin (pyJoin d book_id) "book.pkl") = true
    · rw [if_pos hx]
      constructor
      · intro h; exact Option.noConfusion h
      · intro hall
        have h0 := hall 0 (Nat.succ_pos _)
        simp only [candidatePkl, List.getD_cons_zero] at h0
        exact Bool.noConfusion (h0 ▸ hx)
    · rw [if_neg hx]
      rw [unscopedResolve_eq_none_iff fs book_id rest]
      simp only [Bool.not_eq_true] at hx
      constructor
      · intro hrest i hi
        cases i with
        | zero => simpa only [candidatePkl, List.getD_cons_zero] using hx
        | succ i =>
          have hi' : i < rest.length := by simpa [Nat.succ_lt_succ_iff] using hi
          simpa only [candidatePkl, List.getD_cons_succ] using hrest i hi'
      · intro hall i hi
        have := hall (i + 1) (by simpa [Nat.succ_lt_succ_iff] using hi)
        simpa only [candidatePkl, List.getD_cons_succ] using this

theorem unscopedResolve_eq_some_iff (fs : FS) (book_id p f : String) :
    ∀ roots : List String, (unscopedResolve fs roots book_id = some (p, f) ↔
      ∃ i, i < roots.length ∧ p = candidatePkl roots book_id i ∧
        f = candidateFolder roots book_id i ∧ fs.exists_ p = true ∧
        ∀ j, j < i → fs.exists_ (candidatePkl roots book_id j) = false)
  | [] => by simp [unscopedResolve]
  | d :: rest => by
    unfold unscopedResolve
    by_cases hx : fs.exists_ (pyJoin (pyJoin d book_id) "book.pkl") = true
    · rw [if_pos hx]
      constructor
      · intro h
        simp only [Option.some.injEq, Prod.mk.injEq] at h
        obtain ⟨hp, hf⟩ := h
        refine ⟨0, Nat.succ_pos _, ?_, ?_, ?_, ?_⟩
        · simp [candidatePkl, ← hp]
        · simp [candidateFolder, ← hf]
        · rw [hp] at hx; exact hx
        · intro j hj; exact absurd hj (Nat.not_lt_zero j)
      · rintro ⟨i, hi, hp, hf, hex, hmin⟩
        cases i with
        | zero =>
          simp only [candidatePkl, candidateFolder, List.getD_cons_zero] at hp hf
          rw [hp, hf]
        | succ i =>
          have h0 := hmin 0 (Nat.succ_pos _)
          simp only [candidatePkl, List.getD_cons_zero] at h0
          exact absurd hx (by simp [h0])
    · rw [if_neg hx]
      rw [unscopedResolve_eq_some_iff fs book_id p f rest]
      simp only [Bool.not_eq_true] at hx
      constructor
      · rintro ⟨i, hi, hp, hf, hex, hmin⟩
        refine ⟨i + 1, by simpa [Nat.succ_lt_succ_iff] using hi, ?_, ?_, hex, ?_⟩
        · simpa only [candidatePkl, List.getD_cons_succ] using hp
        · simpa only [candidateFolder, List.getD_cons_succ] using hf
        · intro j hj
          cases j with
          | zero => simpa only [candidatePkl, List.getD_cons_zero] using hx
          | succ j =>
            have := hmin j (Nat.lt_of_succ_lt_succ hj)
            simpa only [candidatePkl, List.getD_cons_succ] using this
      · rintro ⟨i, hi, hp, hf, hex, hmin⟩
        cases i with
        | zero =>
          simp only [candidatePkl, List.getD_cons_zero] at hp
          rw [hp] at hex
          exact absurd hex (by simp [hx])
        | succ i =>
          refine ⟨i, Nat.lt_of_succ_lt_succ (by simpa [Nat.succ_lt_succ_iff] using hi),
            ?_, ?_, hex, ?_⟩
          · simpa only [candidatePkl, List.getD_cons_succ] using hp
          · simpa only [candidateFolder, List.getD_cons_succ] using hf
          · intro j hj
            have := hmin (j + 1) (Nat.succ_lt_succ hj)
            simpa only [candidatePkl, List.getD_cons_succ] using this

/-! ## Witness environments -/

/-- A filesystem on which nothing exists and every deserialization fails. -/
def wfsNone : FS :=
  { exists_ := fun _ => false
    listdir := fun _ => []
    isdir := fun _ => false
    abspath := fun s => s
    pickle := fun _ => .error "missing" }

/-- A filesystem holding exactly one snapshot file, under the second root. -/
def wfsScan : FS :=
  { exists_ := fun p => p == "r2/bk/book.pkl"
    listdir := fun _ => []
    isdir := fun _ => false
    abspath := fun s => s
    pickle := fun _ => .error "corrupt" }

/-! ## Claims C4, C5, C6: the path resolver -/

/-- Claim C4: for every identifier containing a colon whose prefix before the
first colon is non-numeric or parses to an index out of range for the root
list, resolution returns exactly the unscoped resolution of the entire
original string (colon included); it never reports an error.  The prefix is
assumed ASCII: on ASCII strings `pyInt` fails exactly when Python `int()`
raises `ValueError` (whitespace padding and underscore grouping included);
CPython additionally transliterates Unicode digits and spaces, which the
model does not cover. -/
theorem resolve_bad_scoped_equals_unscoped (fs : FS) (roots : List String)
    (book_id : String) (hcolon : ':' ∈ book_id.data)
    (hascii : ∀ c ∈ (splitFirstColon book_id).1.data, c.toNat < 128)
    (hbad : ∀ i : Int, pyInt (splitFirstColon book_id).1 = some i →
      ¬(0 ≤ i ∧ i < (roots.length : Int))) :
    resolve_book_path fs roots book_id = unscopedResolve fs roots book_id := by
  unfold resolve_book_path
  cases hp : pyInt (splitFirstColon book_id).1 with
  | none => simp [hcolon, hp]
  | some i => simp [hcolon, hp, hbad i hp]

theorem resolve_bad_scoped_equals_unscoped_witness :
    (':' ∈ ("x:y" : String).data) ∧
    resolve_book_path wfsNone ["r"] "x:y" = unscopedResolve wfsNone ["r"] "x:y" :=
  ⟨by decide,
   resolve_bad_scoped_equals_unscoped wfsNone ["r"] "x:y" (by decide) (by decide)
     (fun i h => by
       rw [show pyInt (splitFirstColon "x:y").1 = none from rfl] at h
       exact Option.noConfusion h)⟩

/-- Claim C5: for every scoped identifier `i:name` whose prefix parses as an
integer with `0 ≤ i <` number of roots, resolution returns
`<roots[i]>/name/book.pkl` and folder `<roots[i]>/name`, on every filesystem
(no existence check at resolution time). -/
theorem resolve_scoped_in_range (fs : FS) (roots : List String) (idx_s name : String)
    (i : Int) (hp : pyInt idx_s = some i) (h0 : 0 ≤ i)
    (hlt : i < (roots.length : Int)) :
    resolve_book_path fs roots (idx_s ++ ":" ++ name) =
      some (pyJoin (pyJoin (roots.getD i.toNat "") name) "book.pkl",
        pyJoin (roots.getD i.toNat "") name) := by
  have hnc : ':' ∉ idx_s.data := pyInt_not_colon hp
  have hsplit := splitFirstColon_append name hnc
  have hcolon : ':' ∈ (idx_s ++ ":" ++ name).data := by
    rw [data_append_colon]
    exact List.mem_append.mpr (Or.inr (List.mem_cons_self _ _))
  simp [resolve_book_path, hsplit, hp, hcolon, h0, hlt]

theorem resolve_scoped_in_range_witness :
    pyInt "1" = some 1 ∧
    resolve_book_path wfsNone ["r1", "r2"] ("1" ++ ":" ++ "bk") =
      some (pyJoin (pyJoin "r2" "bk") "book.pkl", pyJoin "r2" "bk") :=
  ⟨by decide, by
    rw [resolve_scoped_in_range wfsNone ["r1", "r2"] "1" "bk" 1 (by decide) (by decide)
      (by decide)]
    rfl⟩

/-- Claim C6: for every unscoped identifier, resolution performs the fallback
scan; the scan returns the snapshot path and folder under the first root (in
list order) where `<root>/<id>/book.pkl` exists, and nothing when no root
contains it. -/
theorem resolve_unscoped_first_match (fs : FS) (roots : List String) (book_id : String) :
    (':' ∉ book_id.data →
      resolve_book_path fs roots book_id = unscopedResolve fs roots book_id) ∧
    (∀ p f, unscopedResolve fs roots book_id = some (p, f) ↔
      ∃ i, i < roots.length ∧ p = candidatePkl roots book_id i ∧
        f = candidateFolder roots book_id i ∧ fs.exists_ p = true ∧
        ∀ j, j < i → fs.exists_ (candidatePkl roots book_id j) = false) ∧
    (unscopedResolve fs roots book_id = none ↔
      ∀ i, i < roots.length → fs.exists_ (candidatePkl roots book_id i) = false) := by
  refine ⟨?_, ?_, ?_⟩
  · intro hnc
    unfold resolve_book_path
    simp [hnc]
  · intro p f
    exact unscopedResolve_eq_some_iff fs book_id p f roots
  · exact unscopedResolve_eq_none_iff fs book_id roots

theorem resolve_unscoped_first_match_witness :
    resolve_book_path wfsScan ["r1", "r2"] "bk" = unscopedResolve wfsScan ["r1", "r2"] "bk" ∧
    (∃ i, i < 2 ∧ "r2/bk/book.pkl" = candidatePkl ["r1", "r2"] "bk" i ∧
      "r2/bk" = candidateFolder ["r1", "r2"] "bk" i ∧
      wfsScan.exists_ "r2/bk/book.pkl" = true ∧
      ∀ j, j < i → wfsScan.exists_ (candidatePkl ["r1", "r2"] "bk" j) = false) :=
  ⟨(resolve_unscoped_first_match wfsScan ["r1", "r2"] "bk").1 (by decide),
   ((resolve_unscoped_first_match wfsScan ["r1", "r2"] "bk").2.1 "r2/bk/book.pkl" "r2/bk").mp
     rfl⟩

/-! ## Endpoint lemmas -/

theorem read_chapter_absent {fs : FS} {roots : List String} {book_id : String}
    (ci : Int) (h : load_book fs roots book_id = none) :
    read_chapter fs roots book_id ci = .error (404, "Book not found") := by
  unfold read_chapter
  rw [h]

theorem read_chapter_out_of_range {fs : FS} {roots : List String} {book_id : String}
    {ci : Int} {b : Book} (hb : load_book fs roots book_id = some b)
    (hout : ci < 0 ∨ (b.spine.length : Int) ≤ ci) :
    read_chapter fs roots book_id ci = .error (404, "Chapter not found") := by
  unfold read_chapter
  simp only [hb]
  rw [if_pos hout]

theorem read_chapter_in_range {fs : FS} {roots : List String} {book_id : String}
    {ci : Int} {b : Book} (hb : load_book fs roots book_id = some b)
    (hin : ¬(ci < 0 ∨ (b.spine.length : Int) ≤ ci)) :
    read_chapter fs roots book_id ci = .ok
      { book := b
        current_chapter := b.spine.getD ci.toNat defaultChapter
        chapter_index := ci
        book_id := book_id
        prev_idx := if 0 < ci then some (ci - 1) else none
        next_idx := if ci < (b.spine.length : Int) - 1 then some (ci + 1) else none } := by
  unfold read_chapter
  simp only [hb]
  rw [if_neg hin]

/-! ## Claims C1 and C7: chapter navigation -/

/-- Claim C7: chapter navigation returns not-found when the book is absent or
the index is outside `[0, N)`; inside the range, the previous link is absent
exactly at index 0 and otherwise `index - 1`, and the next link is absent
exactly at index `N - 1` and otherwise `index + 1`. -/
theorem read_chapter_bounds_and_links (fs : FS) (roots : List String) (book_id : String)
    (chapter_index : Int) :
    (load_book fs roots book_id = none →
      read_chapter fs roots book_id chapter_index = .error (404, "Book not found")) ∧
    (∀ b, load_book fs roots book_id = some b →
      ((chapter_index < 0 ∨ (b.spine.length : Int) ≤ chapter_index) →
        read_chapter fs roots book_id chapter_index = .error (404, "Chapter not found")) ∧
      (0 ≤ chapter_index → chapter_index < (b.spine.length : Int) →
        ∃ r, read_chapter fs roots book_id chapter_index = .ok r ∧
          r.prev_idx = (if chapter_index = 0 then none else some (chapter_index - 1)) ∧
          r.next_idx = (if chapter_index = (b.spine.length : Int) - 1 then none
            else some (chapter_index + 1)))) := by
  refine ⟨read_chapter_absent chapter_index, ?_⟩
  intro b hb
  refine ⟨read_chapter_out_of_range hb, ?_⟩
  intro h0 hlt
  have hin : ¬(chapter_index < 0 ∨ (b.spine.length : Int) ≤ chapter_index) := by omega
  refine ⟨_, read_chapter_in_range hb hin, ?_, ?_⟩
  · show (if 0 < chapter_index then some (chapter_index - 1) else none) =
      (if chapter_index = 0 then none else some (chapter_index - 1))
    by_cases hz : chapter_index = 0
    · rw [if_neg (by omega), if_pos hz]
    · rw [if_pos (by omega), if_neg hz]
  · show (if chapter_index < (b.spine.length : Int) - 1 then some (chapter_index + 1)
        else none) =
      (if chapter_index = (b.spine.length : Int) - 1 then none else some (chapter_index + 1))
    by_cases he : chapter_index = (b.spine.length : Int) - 1
    · rw [if_neg (by omega), if_pos he]
    · rw [if_pos (by omega), if_neg he]

/-- A three-chapter test book. -/
def wchap (n : Nat) : ChapterContent :=
  { id := toString n, href := "", title := "", content := "", text := "", order := (n : Int) }

def wbook3 : Book :=
  { metadata :=
      { title := "T", language := "en", authors := ["A"], description := none,
        publisher := none, date := none, identifiers := [], subjects := [] }
    spine := [wchap 0, wchap 1, wchap 2]
    toc := []
    images := []
    source_file := "t.epub"
    processed_at := "now"
    version := "3.0" }

/-- A filesystem holding the three-chapter book under root `r`, folder `bk`. -/
def wfsBook : FS :=
  { exists_ := fun p => p == "r/bk/book.pkl"
    listdir := fun _ => []
    isdir := fun _ => false
    abspath := fun s => s
    pickle := fun p => if p == "r/bk/book.pkl" then .ok wbook3 else .error "missing" }

theorem read_chapter_bounds_and_links_witness :
    load_book wfsBook ["r"] "bk" = some wbook3 ∧
    (∃ r, read_chapter wfsBook ["r"] "bk" 1 = .ok r ∧
      r.prev_idx = (if (1 : Int) = 0 then none else some ((1 : Int) - 1)) ∧
      r.next_idx = (if (1 : Int) = (wbook3.spine.length : Int) - 1 then none
        else some ((1 : Int) + 1))) :=
  ⟨rfl,
   ((read_chapter_bounds_and_links wfsBook ["r"] "bk" 1).2 wbook3 rfl).2
     (by decide) (by decide)⟩

/-- Claim C1 (code bug): the redirect endpoint cannot behave like chapter
navigation at index 0.  Its call to `read_chapter` omits the required
`request` parameter, so for every identifier the call raises `TypeError`
(surfacing as HTTP 500) and never yields a navigation result — neither the
rendered chapter nor the 404 — while the same call with a request bound
(the routed path) is exactly chapter navigation at index 0. -/
theorem redirect_raises_type_error (fs : FS) (roots : List String) (book_id : String) :
    redirect_to_first_chapter fs roots book_id =
      .typeError "read_chapter() missing 1 required positional argument: request" ∧
    (∀ res : Except HTTPError ReaderResponse,
      redirect_to_first_chapter fs roots book_id ≠ .ok res) ∧
    (∀ req : Request, callReadChapter fs roots (some req) book_id 0 =
      .ok (read_chapter fs roots book_id 0)) :=
  ⟨rfl, fun res h => PyCallResult.noConfusion h, fun _ => rfl⟩

theorem redirect_raises_type_error_witness :
    (∃ r : ReaderResponse, read_chapter wfsBook ["r"] "bk" 0 = .ok r) ∧
    redirect_to_first_chapter wfsBook ["r"] "bk" =
      .typeError "read_chapter() missing 1 required positional argument: request" ∧
    redirect_to_first_chapter wfsBook ["r"] "bk" ≠
      PyCallResult.ok (read_chapter wfsBook ["r"] "bk" 0) :=
  ⟨⟨_, rfl⟩, (redirect_raises_type_error wfsBook ["r"] "bk").1,
   (redirect_raises_type_error wfsBook ["r"] "bk").2.1 (read_chapter wfsBook ["r"] "bk" 0)⟩

/-! ## Claim C8: image retrieval is confined to the images subfolder -/

theorem pyBasename_no_slash (s : String) : ∀ c ∈ (pyBasename s).data, c ≠ '/' := by
  intro c hc
  have hc' : c ∈ (s.data.reverse.takeWhile (fun c => c != '/')).reverse := hc
  rw [List.mem_reverse] at hc'
  have := List.mem_takeWhile_imp hc'
  simpa using this

/-- Claim C8: the image endpoint uses only the final filename component of
the requested name (which contains no separator), looks it up only at
`<book folder>/images/<basename>`, and in particular `../../etc/passwd`
is stripped to `passwd`. -/
theorem serve_image_confined (fs : FS) (roots : List String) (book_id image_name : String) :
    (∀ c ∈ (pyBasename image_name).data, c ≠ '/') ∧
    pyBasename "../../etc/passwd" = "passwd" ∧
    (∀ p folder, resolve_book_path fs roots book_id = some (p, folder) →
      ∀ served, serve_image fs roots book_id image_name = .ok served →
        served = pyJoin (pyJoin folder "images") (pyBasename image_name) ∧
        fs.exists_ served = true) := by
  refine ⟨pyBasename_no_slash image_name, rfl, ?_⟩
  intro p folder hres served hserved
  unfold serve_image at hserved
  simp only [hres] at hserved
  split at hserved
  · rename_i hex
    obtain rfl : pyJoin (pyJoin folder "images") (pyBasename image_name) = served :=
      Except.ok.injEq .. ▸ hserved
    exact ⟨rfl, hex⟩
  · exact absurd hserved (by simp)

/-- A filesystem with a snapshot for folder `bk` under root `r` and one image
file `passwd` in its `images` subfolder. -/
def wfsImg : FS :=
  { exists_ := fun p => p == "r/bk/book.pkl" || p == "r/bk/images/passwd"
    listdir := fun _ => []
    isdir := fun _ => false
    abspath := fun s => s
    pickle := fun _ => .error "corrupt" }

theorem serve_image_confined_witness :
    resolve_book_path wfsImg ["r"] "bk" = some ("r/bk/book.pkl", "r/bk") ∧
    serve_image wfsImg ["r"] "bk" "../../etc/passwd" = .ok "r/bk/images/passwd" ∧
    ("r/bk/images/passwd" : String) =
      pyJoin (pyJoin "r/bk" "images") (pyBasename "../../etc/passwd") ∧
    wfsImg.exists_ "r/bk/images/passwd" = true :=
  ⟨rfl, rfl,
   ((serve_image_confined wfsImg ["r"] "bk" "../../etc/passwd").2.2 "r/bk/book.pkl" "r/bk"
       rfl "r/bk/images/passwd" rfl).1,
   ((serve_image_confined wfsImg ["r"] "bk" "../../etc/passwd").2.2 "r/bk/book.pkl" "r/bk"
       rfl "r/bk/images/passwd" rfl).2⟩

/-! ## Claim C9: deserialization failures collapse to cached absence -/

/-- Claim C9: when the resolved snapshot path exists but deserialization
fails, the load returns `none`, the cache stores `none` for the identifier
(subject to the usual truncation), and the reader answers with the same
not-found error as for an unknown book; the raw error never propagates. -/
theorem load_error_collapses_to_absent (fs : FS) (roots : List String)
    (book_id p folder e : String)
    (hres : resolve_book_path fs roots book_id = some (p, folder))
    (hex : fs.exists_ p = true)
    (herr : fs.pickle p = .error e) :
    load_book fs roots book_id = none ∧
    (∀ st, cacheLookup st book_id = none →
      (load_book_cached fs roots st book_id).1 = none ∧
      (load_book_cached fs roots st book_id).2.1 =
        ((book_id, (none : Option Book)) :: st).take 10) ∧
    (∀ ci, read_chapter fs roots book_id ci = .error (404, "Book not found")) := by
  have hload : load_book fs roots book_id = none := by
    unfold load_book
    simp only [hres]
    rw [if_pos hex, herr]
  refine ⟨hload, ?_, fun ci => read_chapter_absent ci hload⟩
  intro st hst
  unfold load_book_cached lruGet
  rw [hst, hload]
  exact ⟨rfl, rfl⟩

theorem load_error_collapses_to_absent_witness :
    resolve_book_path wfsScan ["r1", "r2"] "bk" = some ("r2/bk/book.pkl", "r2/bk") ∧
    wfsScan.exists_ "r2/bk/book.pkl" = true ∧
    wfsScan.pickle "r2/bk/book.pkl" = .error "corrupt" ∧
    load_book wfsScan ["r1", "r2"] "bk" = none ∧
    (load_book_cached wfsScan ["r1", "r2"] [] "bk").1 = none ∧
    read_chapter wfsScan ["r1", "r2"] "bk" 0 = .error (404, "Book not found") :=
  ⟨rfl, rfl, rfl,
   (load_error_collapses_to_absent wfsScan ["r1", "r2"] "bk" "r2/bk/book.pkl" "r2/bk"
       "corrupt" rfl rfl rfl).1,
   ((load_error_collapses_to_absent wfsScan ["r1", "r2"] "bk" "r2/bk/book.pkl" "r2/bk"
       "corrupt" rfl rfl rfl).2.1 [] rfl).1,
   (load_error_collapses_to_absent wfsScan ["r1", "r2"] "bk" "r2/bk/book.pkl" "r2/bk"
       "corrupt" rfl rfl rfl).2.2 0⟩

/-! ## Claim C10: the library listing clamps out-of-range selections -/

/-- Claim C10: a `dir_index` that is negative or at least the number of
configured roots does not fail: the listing equals the one produced for
`dir_index = 0`. -/
theorem library_view_clamps_out_of_range (fs : FS) (roots : List String) (k : Int)
    (hroots : roots ≠ []) (hk : k < 0 ∨ (roots.length : Int) ≤ k) :
    library_view fs roots (some k) = library_view fs roots (some 0) := by
  have hlen : 0 < roots.length := List.length_pos.mpr hroots
  unfold library_view
  rw [if_neg (by simp), if_neg (by simp)]
  simp only [Option.getD_some]
  rw [if_pos hk, if_neg (by omega)]

theorem library_view_clamps_out_of_range_witness :
    library_view wfsNone ["r"] (some 5) = library_view wfsNone ["r"] (some 0) :=
  library_view_clamps_out_of_range wfsNone ["r"] 5 (by decide) (by decide)

/-! ## Cache lemmas -/

theorem lruGet_eq_hit {α : Type} {f : String → α} {st : CacheState α} {k : String} {v : α}
    (h : cacheLookup st k = some v) :
    lruGet f st k = (v, (k, v) :: st.filter (fun q => decide (q.1 ≠ k)), 0) := by
  unfold lruGet
  rw [h]

theorem lruGet_eq_miss {α : Type} {f : String → α} {st : CacheState α} {k : String}
    (h : cacheLookup st k = none) :
    lruGet f st k = (f k, ((k, f k) :: st).take 10, 1) := by
  unfold lruGet
  rw [h]

theorem cacheLookup_eq_none_iff {α : Type} (st : CacheState α) (k : String) :
    cacheLookup st k = none ↔ ∀ p ∈ st, p.1 ≠ k := by
  induction st with
  | nil => simp [cacheLookup]
  | cons q rest ih =>
    by_cases hq : q.1 = k
    · constructor
      · intro h; exact absurd h (by simp [cacheLookup, hq])
      · intro h; exact absurd hq (h q (List.mem_cons_self q rest))
    · rw [show cacheLookup (q :: rest) k = cacheLookup rest k from by simp [cacheLookup, hq],
        ih]
      constructor
      · intro h p hp
        rcases List.mem_cons.mp hp with rfl | hp'
        · exact hq
        · exact h p hp'
      · intro h p hp
        exact h p (List.mem_cons_of_mem q hp)

theorem cacheLookup_some_mem {α : Type} {st : CacheState α} {k : String} {v : α}
    (h : cacheLookup st k = some v) : (k, v) ∈ st := by
  induction st with
  | nil => exact absurd h (by simp [cacheLookup])
  | cons q rest ih =>
    by_cases hq : q.1 = k
    · have hv : some q.2 = some v := by simpa [cacheLookup, hq] using h
      have hqkv : q = (k, v) := by
        obtain ⟨q1, q2⟩ := q
        simp only at hq
        have hv' : q2 = v := Option.some.inj hv
        rw [hq, hv']
      rw [← hqkv]
      exact List.mem_cons_self _ _
    · have h' : cacheLookup rest k = some v := by simpa [cacheLookup, hq] using h
      exact List.mem_cons_of_mem q (ih h')

theorem length_filter_lt {α : Type} {l : List α} {p : α → Bool} {x : α}
    (hx : x ∈ l) (hpx : p x = false) : (l.filter p).length < l.length := by
  induction l with
  | nil => cases hx
  | cons a rest ih =>
    rcases List.mem_cons.mp hx with rfl | hmem
    · have hle := List.length_filter_le p rest
      simp [List.filter_cons, hpx]
      omega
    · have hlt := ih hmem
      cases hpa : p a
      · simp [List.filter_cons, hpa]
        omega
      · simp [List.filter_cons, hpa]
        omega

theorem firstIdx_cons_self (l : List String) (k : String) : firstIdx (k :: l) k = 0 := by
  simp [firstIdx]

theorem firstIdx_cons_ne (l : List String) {a k : String} (h : a ≠ k) :
    firstIdx (k :: l) a = firstIdx l a + 1 := by
  simp [firstIdx, Ne.symm h]

theorem moreRecent_extend {ks : List String} {a b : String} (k : String)
    (h : moreRecent ks a b) (ha : a ≠ k) (hb : b ≠ k) : moreRecent (ks ++ [k]) a b := by
  unfold moreRecent at h ⊢
  rw [List.reverse_append]
  simp only [List.reverse_singleton, List.singleton_append]
  rw [firstIdx_cons_ne _ ha, firstIdx_cons_ne _ hb]
  omega

theorem moreRecent_new {ks : List String} {b : String} (k : String) (hb : b ≠ k) :
    moreRecent (ks ++ [k]) k b := by
  unfold moreRecent
  rw [List.reverse_append]
  simp only [List.reverse_singleton, List.singleton_append]
  rw [firstIdx_cons_self, firstIdx_cons_ne _ hb]
  omega

/-- The reachable-state invariant of the LRU cache: at most 10 entries, keys
ordered strictly by decreasing recency of use in the history `ks`, every key
seen in the history, every value the memoized function's value. -/
structure CacheInv {α : Type} (f : String → α) (ks : List String) (st : CacheState α) :
    Prop where
  size_le : st.length ≤ 10
  ordered : (st.map Prod.fst).Pairwise (moreRecent ks)
  keys_mem : ∀ p ∈ st, p.1 ∈ ks
  values : ∀ p ∈ st, p.2 = f p.1

theorem cacheInv_nil {α : Type} (f : String → α) : CacheInv f [] [] :=
  ⟨by simp, by simp, by simp, by simp⟩

theorem cacheInv_step {α : Type} {f : String → α} {ks : List String} {st : CacheState α}
    (inv : CacheInv f ks st) (k : String) :
    CacheInv f (ks ++ [k]) (lruGet f st k).2.1 := by
  cases hl : cacheLookup st k with
  | some v =>
    rw [lruGet_eq_hit hl]
    have hmem : (k, v) ∈ st := cacheLookup_some_mem hl
    refine ⟨?_, ?_, ?_, ?_⟩
    · have hlt : (st.filter (fun q => decide (q.1 ≠ k))).length < st.length :=
        length_filter_lt hmem (by simp)
      have h10 := inv.size_le
      simp only [List.length_cons]
      omega
    · simp only [List.map_cons]
      refine List.Pairwise.cons ?_ ?_
      · intro b hb
        obtain ⟨q, hq, rfl⟩ := List.mem_map.mp hb
        have hqk : q.1 ≠ k := by simpa using (List.mem_filter.mp hq).2
        exact moreRecent_new k hqk
      · have hsub : (st.filter (fun q => decide (q.1 ≠ k))).map Prod.fst |>.Sublist
            (st.map Prod.fst) := (List.filter_sublist st).map Prod.fst
        have hpw := List.Pairwise.sublist hsub inv.ordered
        refine List.Pairwise.imp_of_mem ?_ hpw
        intro a b ha hb hab
        obtain ⟨qa, hqa, rfl⟩ := List.mem_map.mp ha
        obtain ⟨qb, hqb, rfl⟩ := List.mem_map.mp hb
        have hka : qa.1 ≠ k := by simpa using (List.mem_filter.mp hqa).2
        have hkb : qb.1 ≠ k := by simpa using (List.mem_filter.mp hqb).2
        exact moreRecent_extend k hab hka hkb
    · intro p hp
      rcases List.mem_cons.mp hp with rfl | hp'
      · simp
      · exact List.mem_append.mpr (Or.inl (inv.keys_mem p (List.mem_of_mem_filter hp')))
    · intro p hp
      rcases List.mem_cons.mp hp with rfl | hp'
      · exact inv.values (k, v) hmem
      · exact inv.values p (List.mem_of_mem_filter hp')
  | none =>
    rw [lruGet_eq_miss hl]
    have hknotin : ∀ p ∈ st, p.1 ≠ k := (cacheLookup_eq_none_iff st k).mp hl
    refine ⟨?_, ?_, ?_, ?_⟩
    · rw [List.length_take]
      omega
    · have hfull : (((k, f k) :: st).map Prod.fst).Pairwise (moreRecent (ks ++ [k])) := by
        simp only [List.map_cons]
        refine List.Pairwise.cons ?_ ?_
        · intro b hb
          obtain ⟨q, hq, rfl⟩ := List.mem_map.mp hb
          exact moreRecent_new k (hknotin q hq)
        · refine List.Pairwise.imp_of_mem ?_ inv.ordered
          intro a b ha hb hab
          obtain ⟨qa, hqa, rfl⟩ := List.mem_map.mp ha
          obtain ⟨qb, hqb, rfl⟩ := List.mem_map.mp hb
          exact moreRecent_extend k hab (hknotin qa hqa) (hknotin qb hqb)
      have hsub : ((((k, f k) :: st).take 10).map Prod.fst).Sublist
          (((k, f k) :: st).map Prod.fst) := (List.take_sublist 10 _).map Prod.fst
      exact List.Pairwise.sublist hsub hfull
    · intro p hp
      have hp' : p ∈ (k, f k) :: st := (List.take_sublist 10 _).subset hp
      rcases List.mem_cons.mp hp' with rfl | hmem
      · simp
      · exact List.mem_append.mpr (Or.inl (inv.keys_mem p hmem))
    · intro p hp
      have hp' : p ∈ (k, f k) :: st := (List.take_sublist 10 _).subset hp
      rcases List.mem_cons.mp hp' with rfl | hmem
      · rfl
      · exact inv.values p hmem

theorem runLru_snoc {α : Type} (f : String → α) (ks : List String) (k : String) :
    runLru f (ks ++ [k]) = (lruGet f (runLru f ks) k).2.1 := by
  unfold runLru
  rw [List.foldl_append]
  rfl

theorem cacheInv_run {α : Type} (f : String → α) (ks : List String) :
    CacheInv f ks (runLru f ks) := by
  induction ks using List.reverseRecOn with
  | nil => exact cacheInv_nil f
  | append_singleton ks k ih =>
    rw [runLru_snoc]
    exact cacheInv_step ih k

/-! ## Claim C2: bounded capacity and least-recently-used eviction -/

/-- Claim C2: after any sequence of lookups the cache holds at most 10
entries; and when a lookup of a fresh identifier hits a full cache of 10,
the new state keeps the 9 most recent entries plus the new one, the dropped
entry's key is gone, and every surviving old key was used more recently
(hits and insertions both counting as uses) than the evicted one. -/
theorem cache_capacity_and_lru_eviction (fs : FS) (roots : List String)
    (ks : List String) (k : String) :
    (runBookCache fs roots ks).length ≤ 10 ∧
    (∀ e, (runBookCache fs roots ks).length = 10 →
      cacheLookup (runBookCache fs roots ks) k = none →
      (runBookCache fs roots ks).getLast? = some e →
      (load_book_cached fs roots (runBookCache fs roots ks) k).2.1 =
        (k, load_book fs roots k) :: (runBookCache fs roots ks).dropLast ∧
      e.1 ∉ ((k, load_book fs roots k) ::
        (runBookCache fs roots ks).dropLast).map Prod.fst ∧
      (∀ k' ∈ ((runBookCache fs roots ks).dropLast).map Prod.fst,
        moreRecent ks k' e.1)) := by
  unfold runBookCache load_book_cached
  set g := load_book fs roots with hg
  set st := runLru g ks with hst
  have inv : CacheInv g ks st := cacheInv_run g ks
  refine ⟨inv.size_le, ?_⟩
  intro e h10 hnone hlast
  have hne : st ≠ [] := by
    intro h
    rw [h] at h10
    simp at h10
  have hget : st.getLast hne = e := by
    have hq := List.getLast?_eq_getLast st hne
    rw [hlast] at hq
    exact (Option.some.inj hq).symm
  have hdrop : st.dropLast ++ [st.getLast hne] = st := List.dropLast_append_getLast hne
  have hmap : st.map Prod.fst = st.dropLast.map Prod.fst ++ [e.1] := by
    conv_lhs => rw [← hdrop]
    rw [List.map_append, hget]
    rfl
  have hpw := inv.ordered
  rw [hmap] at hpw
  have hforall := (List.pairwise_append.mp hpw).2.2
  have hstep : (lruGet g st k).2.1 = (k, g k) :: st.dropLast := by
    rw [lruGet_eq_miss hnone]
    show ((k, g k) :: st).take 10 = (k, g k) :: st.dropLast
    rw [List.dropLast_eq_take, h10]
    rfl
  refine ⟨hstep, ?_, ?_⟩
  · intro hmem
    have hmem' : e.1 ∈ k :: st.dropLast.map Prod.fst := by
      simpa using hmem
    rcases List.mem_cons.mp hmem' with he | he
    · have hemem : e ∈ st := hget ▸ List.getLast_mem hne
      exact (cacheLookup_eq_none_iff st k).mp hnone e hemem he
    · have hcontra := hforall e.1 he e.1 (by simp)
      exact absurd hcontra (by unfold moreRecent; omega)
  · intro k' hk'
    exact hforall k' hk' e.1 (by simp)

/-- Ten distinct identifiers to fill the cache, then the fresh `"z"`. -/
def wks : List String :=
  ["k0", "k1", "k2", "k3", "k4", "k5", "k6", "k7", "k8", "k9"]

theorem cache_capacity_and_lru_eviction_witness :
    (runBookCache wfsNone [] wks).length = 10 ∧
    cacheLookup (runBookCache wfsNone [] wks) "z" = none ∧
    (runBookCache wfsNone [] wks).getLast? = some ("k0", (none : Option Book)) ∧
    (load_book_cached wfsNone [] (runBookCache wfsNone [] wks) "z").2.1 =
      ("z", load_book wfsNone [] "z") :: (runBookCache wfsNone [] wks).dropLast ∧
    ("k0", (none : Option Book)).1 ∉ (("z", load_book wfsNone [] "z") ::
      (runBookCache wfsNone [] wks).dropLast).map Prod.fst ∧
    (∀ k' ∈ ((runBookCache wfsNone [] wks).dropLast).map Prod.fst,
      moreRecent wks k' ("k0", (none : Option Book)).1) :=
  ⟨rfl, rfl, rfl,
   ((cache_capacity_and_lru_eviction wfsNone [] wks "z").2 ("k0", none) rfl rfl rfl).1,
   ((cache_capacity_and_lru_eviction wfsNone [] wks "z").2 ("k0", none) rfl rfl rfl).2.1,
   ((cache_capacity_and_lru_eviction wfsNone [] wks "z").2 ("k0", none) rfl rfl rfl).2.2⟩

/-! ## Claim C3: a repeated lookup reads the disk exactly once -/

theorem lruGet_state_head {α : Type} (f : String → α) (st : CacheState α) (k : String) :
    ∃ rest, (lruGet f st k).2.1 = (k, (lruGet f st k).1) :: rest := by
  cases hl : cacheLookup st k with
  | some v =>
    rw [lruGet_eq_hit hl]
    exact ⟨_, rfl⟩
  | none =>
    rw [lruGet_eq_miss hl]
    exact ⟨st.take 9, rfl⟩

/-- Claim C3: the second of two consecutive lookups of the same identifier
performs no disk read and returns the value stored by the first; when the
identifier was not cached before, the first lookup performs exactly one disk
read (producing `load_book`'s result, `none` included), so the pair performs
exactly one. -/
theorem cache_repeat_single_read (fs : FS) (roots : List String)
    (st : CacheState (Option Book)) (k : String) :
    (load_book_cached fs roots (load_book_cached fs roots st k).2.1 k).2.2 = 0 ∧
    (load_book_cached fs roots (load_book_cached fs roots st k).2.1 k).1 =
      (load_book_cached fs roots st k).1 ∧
    (cacheLookup st k = none →
      (load_book_cached fs roots st k).2.2 = 1 ∧
      (load_book_cached fs roots st k).1 = load_book fs roots k ∧
      (load_book_cached fs roots st k).2.2 +
        (load_book_cached fs roots (load_book_cached fs roots st k).2.1 k).2.2 = 1) := by
  unfold load_book_cached
  set g := load_book fs roots with hg
  obtain ⟨rest, hhead⟩ := lruGet_state_head g st k
  have hlook2 : cacheLookup (lruGet g st k).2.1 k = some (lruGet g st k).1 := by
    rw [hhead]
    simp [cacheLookup]
  have h2 := lruGet_eq_hit (f := g) hlook2
  refine ⟨by rw [h2], by rw [h2], ?_⟩
  intro hnone
  have h1 := lruGet_eq_miss (f := g) hnone
  refine ⟨by rw [h1], by rw [h1], ?_⟩
  rw [h2, h1]
  rfl

theorem cache_repeat_single_read_witness :
    cacheLookup ([] : CacheState (Option Book)) "a" = none ∧
    (load_book_cached wfsNone [] [] "a").2.2 = 1 ∧
    (load_book_cached wfsNone [] [] "a").1 = load_book wfsNone [] "a" ∧
    (load_book_cached wfsNone [] (load_book_cached wfsNone [] [] "a").2.1 "a").2.2 = 0 ∧
    (load_book_cached wfsNone [] (load_book_cached wfsNone [] [] "a").2.1 "a").1 =
      (load_book_cached wfsNone [] [] "a").1 :=
  ⟨rfl, ((cache_repeat_single_read wfsNone [] [] "a").2.2 rfl).1,
   ((cache_repeat_single_read wfsNone [] [] "a").2.2 rfl).2.1,
   (cache_repeat_single_read wfsNone [] [] "a").1,
   (cache_repeat_single_read wfsNone [] [] "a").2.1⟩
